/-
Verification of the adaptive crawling spider
(`acrawler/spiders/adaptive.py`).

The development shallowly embeds the parts of the module that the
properties below are about:

* `MaxScores` — the per-domain running-maximum reward tracker;
* `get_link_scores` — batch link classification with the 0.5 prior for
  unfitted classifiers;
* the crawl graph (a networkx `DiGraph` used as an arena of
  attribute-dict nodes plus link-carrying edges) and the operations
  `update_response_node`, `generate_out_nodes`, `update_classifiers`,
  `_recalculate_link_scores` / `recalculate_link_scores`,
  `on_offdomain_request_dropped`;
* the per-visit orchestration (`parse`) and the periodic re-scoring
  task, combined into a step function over spider states.

Modelling conventions:

* Python dicts are association lists (`List (κ × β)`); `dictGet` /
  `dictSet` mirror `d[k]` lookup and `d[k] = v` assignment (overwrite
  the existing binding, else append).
* Scores are rationals (`ℚ`).  Every concrete score computation proved
  below produces the same values under IEEE double arithmetic, so the
  rational model is faithful for these properties.
* A networkx node is an attribute dict; `add_node` on an existing node
  merges the given attributes into it.  `NodeData` has one `Option`
  field per attribute used by the module (an attribute set to Python
  `None` and an absent attribute are both `none`; the module never
  distinguishes the two for these fields).
* Randomness (`random.sample`, `random.shuffle`) is modelled by
  passing the drawn sample / the shuffled link list as an argument,
  constrained where a theorem needs the draw to be valid.
* External collaborators (sklearn's `predict_proba`, the vectorizer,
  the scheduler queue, link extraction) are parameters of the
  functions that call them.
-/
import Mathlib

namespace Acrawler

/-! ## Python-dict helpers -/

/-- Lookup `d[k]` in an association list, `none` when the key is absent
(a Python `KeyError` site when the code indexes directly). -/
def dictGet {κ β : Type} [DecidableEq κ] : List (κ × β) → κ → Option β
  | [], _ => none
  | (k1, v) :: rest, k => if k1 = k then some v else dictGet rest k

/-- Assignment `d[k] = v`: overwrite the first binding of `k`, else append. -/
def dictSet {κ β : Type} [DecidableEq κ] : List (κ × β) → κ → β → List (κ × β)
  | [], k, v => [(k, v)]
  | (k1, v1) :: rest, k, v =>
    if k1 = k then (k, v) :: rest else (k1, v1) :: dictSet rest k v

/-- `d.get(k, default)`. -/
def dictGetD {κ β : Type} [DecidableEq κ] (d : List (κ × β)) (k : κ) (v0 : β) : β :=
  (dictGet d k).getD v0

/-- A category (form type) → score mapping, as produced by the content
scorer and stored in nodes and in `MaxScores` entries. -/
abbrev ScoresDict := List (String × ℚ)

/-! ## `MaxScores` (the domain reward tracker) -/

/-- `MaxScores`: per-domain running maximum of observed scores.
`classes` is the fixed category list given at construction;
`scores` maps each seen domain to its per-category maxima
(the `collections.defaultdict` of the source). -/
structure MaxScores where
  classes : List String
  scores : List (String × ScoresDict)
deriving Repr, DecidableEq

/-- `MaxScores(classes)` — fresh tracker, no domain seen yet. -/
def MaxScores.init (classes : List String) : MaxScores :=
  ⟨classes, []⟩

/-- `self._zero_scores`: every class at `0.0` (entries are created from a
copy of this dict). -/
def MaxScores.zeroScores (m : MaxScores) : ScoresDict :=
  m.classes.map (fun c => (c, 0))

/-- The loop body of `MaxScores.update`:
`for k, v in scores.items(): cur_scores[k] = max(cur_scores[k], v)`.
Reading `cur_scores[k]` raises `KeyError` when `k` is not a key of the
entry, hence the `Option`. -/
def updScores : ScoresDict → ScoresDict → Option ScoresDict
  | cur, [] => some cur
  | cur, (k, v) :: rest =>
    match dictGet cur k with
    | none => none
    | some old => updScores (dictSet cur k (max old v)) rest

/-- `MaxScores.update(domain, scores)`.  Accessing
`self.scores[domain]` on the defaultdict lazily creates the entry as a
copy of the zero dict. -/
def MaxScores.update (m : MaxScores) (domain : String) (s : ScoresDict) :
    Option MaxScores :=
  let cur := (dictGet m.scores domain).getD m.zeroScores
  match updScores cur s with
  | none => none
  | some cur2 => some { m with scores := dictSet m.scores domain cur2 }

/-- `MaxScores.sum()`: per class, the sum over all domain entries.
Every entry carries exactly the class keys (entries are created as
copies of the zero dict and `updScores` only overwrites existing keys),
so the `getD 0` default is never hit on reachable trackers. -/
def MaxScores.sum (m : MaxScores) : ScoresDict :=
  m.classes.map (fun k => (k, (m.scores.map (fun p => dictGetD p.2 k 0)).sum))

/-- `MaxScores.avg()`. -/
def MaxScores.avg (m : MaxScores) : ScoresDict :=
  if m.scores.isEmpty then m.zeroScores
  else m.sum.map (fun p => (p.1, p.2 / m.scores.length))

/-- `len(self)` — the number of domains seen. -/
def MaxScores.len (m : MaxScores) : Nat :=
  m.scores.length

/-- The doctest call sequence of the claim, over categories `a`, `b`. -/
def maxScoresDoctest : Option MaxScores :=
  ((MaxScores.init ["a", "b"]).update "foo" [("a", 1/10), ("b", 3/10)]).bind
    (fun m => (m.update "foo" [("a", 1/100), ("b", 2/5)]).bind
      (fun m2 => m2.update "bar" [("a", 4/5)]))

/-! ## Link records and classifiers (`get_link_scores`) -/

/-- A raw link feature record, as yielded by `iter_link_dicts`: a dict
holding at least the target `url`; the remaining feature payload is
opaque to this module and collapsed into one field. -/
structure LinkDict where
  url : String
  feat : Nat
deriving Repr, DecidableEq

/-- One per-form-type incremental classifier.  `coef` mirrors sklearn's
`coef_`, which is `None` until the first `partial_fit` call. -/
structure Clf where
  coef : Option (List ℚ)
deriving Repr, DecidableEq

/-- The write-back loop of `get_link_scores`:
`for prob, score_dict in zip(probs, scores): score_dict[form_type] = prob`.
`zip` stops at the shorter list; later dicts are left untouched. -/
def setAll (ft : String) : List ℚ → List ScoresDict → List ScoresDict
  | _, [] => []
  | [], ds => ds
  | p :: ps, d :: ds => dictSet d ft p :: setAll ft ps ds

/-- `AdaptiveSpider.get_link_scores(links)`.

`predictProba` stands for the external
`clf.predict_proba(link_vectorizer.transform(links))[..., 1]`
pipeline (hashing vectorizer composed with sklearn's probability
prediction), given the fitted coefficients; it is a parameter because
both halves are external library code.  An unfitted classifier
(`coef_ is None`) instead contributes the uniform probability 0.5 for
every link. -/
def scoreStep (predictProba : List ℚ → List LinkDict → List ℚ)
    (links : List LinkDict) (scores : List ScoresDict)
    (pc : String × Clf) : List ScoresDict :=
  -- one iteration of the per-form-type loop of `get_link_scores`
  let probs :=
    match pc.2.coef with
    | none => links.map (fun _ => (1/2 : ℚ))
    | some c => predictProba c links
  setAll pc.1 probs scores

def get_link_scores (predictProba : List ℚ → List LinkDict → List ℚ)
    (clfs : List (String × Clf)) (links : List LinkDict) : List ScoresDict :=
  if links.isEmpty then []
  else clfs.foldl (scoreStep predictProba links) (links.map (fun _ => []))

/-! ## The crawl graph -/

/-- The attribute dict of one networkx node, restricted to the
attributes this module reads or writes.  `none` stands for
attribute-absent as well as for an attribute explicitly set to `None`
(the module treats the two alike for these fields). -/
structure NodeData where
  url : Option String := none
  visited : Option Bool := none
  ok : Option Bool := none
  scores : Option ScoresDict := none
  response_id : Option Nat := none
  predicted_scores : Option ScoresDict := none
deriving Repr, DecidableEq

/-- A directed edge with its `link` attribute (the raw link dict). -/
structure Edge where
  src : Nat
  dst : Nat
  link : LinkDict
deriving Repr, DecidableEq

/-- The crawl graph `self.G` (networkx `DiGraph`): nodes keyed by id
with attribute dicts, plus attributed edges. -/
structure Graph where
  nodes : List (Nat × NodeData)
  edges : List Edge
deriving Repr, DecidableEq

def Graph.getNode (g : Graph) (n : Nat) : Option NodeData :=
  dictGet g.nodes n

def Graph.setNode (g : Graph) (n : Nat) (d : NodeData) : Graph :=
  { g with nodes := dictSet g.nodes n d }

/-- The node id list, in insertion order. -/
def Graph.nodeIds (g : Graph) : List Nat :=
  g.nodes.map Prod.fst

/-- networkx creates missing endpoints of `add_edge`; in this module
both endpoints always already exist when an edge is added. -/
def Graph.ensureNode (g : Graph) (n : Nat) : Graph :=
  if (g.getNode n).isSome then g else g.setNode n {}

/-- `G.add_edge(s, t, link=l)`: update the `link` attribute if the edge
exists, else append the new edge (networkx stores one edge per ordered
pair). -/
def Graph.addEdge (g : Graph) (s t : Nat) (l : LinkDict) : Graph :=
  let g1 := (g.ensureNode s).ensureNode t
  if g1.edges.any (fun e => e.src == s && e.dst == t) then
    let upd := fun (e : Edge) =>
      if e.src == s && e.dst == t then { e with link := l } else e
    { g1 with edges := g1.edges.map upd }
  else
    { g1 with edges := g1.edges ++ [⟨s, t, l⟩] }

/-- Number of incoming edges of `n`. -/
def Graph.inDeg (g : Graph) (n : Nat) : Nat :=
  (g.edges.filter (fun e => e.dst == n)).length

/-- `self._iter_incoming_link_dicts(node_id)`:
`for prev_id in G.predecessors_iter(n): yield G.edge[prev_id][n]['link']`
(in edge insertion order). -/
def Graph.incomingLinks (g : Graph) (n : Nat) : List LinkDict :=
  (g.edges.filter (fun e => e.dst == n)).map Edge.link

/-- `predecessors_iter` raises `NetworkXError` when `n` is not a node,
hence the checked variant. -/
def Graph.incomingLinksChecked (g : Graph) (n : Nat) : Option (List LinkDict) :=
  if (g.getNode n).isSome then some (g.incomingLinks n) else none

/-! ## Spider state and responses -/

/-- The mutable spider attributes the embedded operations touch.

`next` is the state of `self.node_ids = itertools.count()` (the next id
it will yield).  `seeds` is bookkeeping for the statements below: the
ids allocated by the seed branch of `update_response_node` (the source
distinguishes them only at allocation time, via `is_seed_url`).
`replay` is `self._replay_node_ids` (a set, kept as a duplicate-free
list in insertion order).  The sklearn classifier objects are not part
of this state: `update_classifiers` mutates only them, and its batch
construction is embedded separately below. -/
structure SpiderState where
  g : Graph
  next : Nat
  seeds : List Nat
  replay : List Nat
  recalculated_at : Nat
  response_count : Nat
  domains : MaxScores
deriving Repr, DecidableEq

/-- The fields of a scrapy response (and of its `meta` dict) that
`parse` reads.  `maxScores` is the output of the external content
scorer `response_max_scores(response)`; `hasText` is
`hasattr(response, 'text')`. -/
structure Response where
  url : String
  status : Nat
  hasText : Bool
  metaNodeId : Option Nat
  domain : String
  maxScores : ScoresDict
deriving Repr, DecidableEq

/-- `ok = response.status == 200 and hasattr(response, 'text')`. -/
def responseOk (r : Response) : Bool :=
  r.status == 200 && r.hasText

/-- `score_pages.get_constant_scores(v)` (external helper): the
constant dict `v` over every available form type. -/
def get_constant_scores (formTypes : List String) (v : ℚ) : ScoresDict :=
  formTypes.map (fun c => (c, v))

/-- The observed scores recorded for a response: the content scorer's
output when ok, else all zeros. -/
def observedScores (formTypes : List String) (r : Response) : ScoresDict :=
  if responseOk r then r.maxScores else get_constant_scores formTypes 0

/-- The `G.add_node(node_id, url=…, visited=True, ok=…, scores=…,
response_id=…)` merge performed by `update_response_node`
(`predicted_scores` is left as it was). -/
def Graph.addNodeVisited (g : Graph) (n : Nat) (url : String) (ok : Bool)
    (sc : ScoresDict) (rid : Nat) : Graph :=
  let old := (g.getNode n).getD {}
  g.setNode n
    { old with
      url := some url
      visited := some true
      ok := some ok
      scores := some sc
      response_id := some rid }

/-- Adding to the `_replay_node_ids` set. -/
def insertId (l : List Nat) (n : Nat) : List Nat :=
  if n ∈ l then l else l ++ [n]

/-- `AdaptiveSpider.update_response_node(response)`.  A seed response
(no `node_id` in `meta`) allocates a fresh id from the shared counter;
the node is then created/updated with the observed data, and — for
non-seed responses only — its id is added to the replay set.  Returns
the updated state and the resolved node id. -/
def update_response_node (formTypes : List String) (st : SpiderState)
    (r : Response) : SpiderState × Nat :=
  match r.metaNodeId with
  | none =>
    let node_id := st.next
    let g := st.g.addNodeVisited node_id r.url (responseOk r)
      (observedScores formTypes r) st.response_count
    ({ st with g := g, next := st.next + 1, seeds := st.seeds ++ [node_id] },
     node_id)
  | some node_id =>
    let g := st.g.addNodeVisited node_id r.url (responseOk r)
      (observedScores formTypes r) st.response_count
    ({ st with g := g, replay := insertId st.replay node_id }, node_id)

/-- `AdaptiveSpider.update_domain_scores(response, node_id)`.  Reads
the node's freshly written `scores`; a falsy value (`None` attribute or
empty dict) returns without updating; otherwise the domain tracker is
updated (the scheduler-queue notification is external).  `none` marks
the `KeyError` paths (missing node, or a score key outside the class
set). -/
def update_domain_scores (st : SpiderState) (r : Response) (node_id : Nat) :
    Option SpiderState :=
  match st.g.getNode node_id with
  | none => none
  | some d =>
    match d.scores with
    | none => some st
    | some sc =>
      if sc.isEmpty then some st
      else
        match st.domains.update r.domain sc with
        | none => none
        | some ds => some { st with domains := ds }

/-! ## Training-batch construction (`update_classifiers`) -/

/-- `self._get_y(node_id, form_type)`'s single label:
`node['scores'].get(form_type, 0.0) >= 0.5`.  `none` when the node is
missing or its `scores` are not set (an exception in the source). -/
def getLabel (g : Graph) (n : Nat) (ft : String) : Option Bool :=
  match g.getNode n with
  | none => none
  | some d =>
    match d.scores with
    | none => none
    | some sc => some (decide ((1 : ℚ)/2 ≤ dictGetD sc ft 0))

/-- One training batch: the raw feature records and, per form type, the
label list (`X_raw` and `y_all` of the source, just before
vectorization and `partial_fit`). -/
structure TrainBatch where
  xraw : List LinkDict
  y : List (String × List Bool)
deriving Repr, DecidableEq

/-- `y_all[form_type] = self._get_y(node_id, form_type) * len(X_raw)`
for every form type. -/
def freshY (g : Graph) (n : Nat) (count : Nat) :
    List String → Option (List (String × List Bool))
  | [] => some []
  | ft :: rest =>
    match getLabel g n ft, freshY g n count rest with
    | some b, some tl => some ((ft, List.replicate count b) :: tl)
    | _, _ => none

/-- `y_all[form_type].extend(self._get_y(_id, form_type) * len(_x))`
for every form type. -/
def extendY (g : Graph) (i : Nat) (count : Nat) :
    List (String × List Bool) → Option (List (String × List Bool))
  | [] => some []
  | (ft, ys) :: rest =>
    match getLabel g i ft, extendY g i count rest with
    | some b, some tl => some ((ft, ys ++ List.replicate count b) :: tl)
    | _, _ => none

/-- The experience-replay loop: for each sampled past id, append its
incoming-link records to `X_raw` and the matching labels to `y_all`
(ids without incoming links are skipped). -/
def replayFold (g : Graph) : List Nat → List LinkDict →
    List (String × List Bool) → Option (List LinkDict × List (String × List Bool))
  | [], x, y => some (x, y)
  | i :: rest, x, y =>
    match g.incomingLinksChecked i with
    | none => none
    | some xi =>
      if xi.isEmpty then replayFold g rest x y
      else
        match extendY g i xi.length y with
        | none => none
        | some y2 => replayFold g rest (x ++ xi) y2

/-- `AdaptiveSpider.update_classifiers(node_id)`, up to the external
`link_vectorizer.transform` / `clf.partial_fit` calls: the constructed
training batch.

`sample` is the draw `random.sample(self._replay_node_ids,
self.replay_N)`; it is consulted only when replay is enabled
(`replay_N` truthy) and the buffer is strictly larger than `replay_N`.
Result: `none` for the exception paths, `some none` for the early
return (no incoming links, nothing is trained), `some (some batch)`
otherwise. -/
def update_classifiers (g : Graph) (replayBuf : List Nat) (replayN : Nat)
    (sample : List Nat) (fts : List String) (node_id : Nat) :
    Option (Option TrainBatch) :=
  match g.incomingLinksChecked node_id with
  | none => none
  | some xfresh =>
    if xfresh.isEmpty then some none
    else
      match freshY g node_id xfresh.length fts with
      | none => none
      | some y0 =>
        if replayN ≠ 0 ∧ replayN < replayBuf.length then
          match replayFold g sample xfresh y0 with
          | none => none
          | some xy => some (some ⟨xy.1, xy.2⟩)
        else some (some ⟨xfresh, y0⟩)

/-! ## Periodic re-scoring (`recalculate_link_scores`) -/

/-- The `G.add_node(node_id, predicted_scores=scores)` merge of the
re-scoring write-back: only `predicted_scores` is supplied, every other
attribute is kept. -/
def Graph.addNodePredicted (g : Graph) (n : Nat) (sc : ScoresDict) : Graph :=
  let old := (g.getNode n).getD {}
  g.setNode n { old with predicted_scores := some sc }

/-- The gather loop of `_recalculate_link_scores`: for each frontier
node id, each incoming edge contributes its link record paired with the
node id.  `none` when a pending id is not a graph node
(`predecessors_iter` would raise). -/
def gatherPending (g : Graph) : List Nat → Option (List (LinkDict × Nat))
  | [] => some []
  | n :: rest =>
    if (g.getNode n).isSome then
      match gatherPending g rest with
      | none => none
      | some tl => some ((g.incomingLinks n).map (fun l => (l, n)) ++ tl)
    else none

/-- The write-back loop: `for node_id, scores in zip(update_node_ids,
link_scores): G.add_node(node_id, predicted_scores=scores)`. -/
def applyPredicted (g : Graph) (pairs : List (Nat × ScoresDict)) : Graph :=
  pairs.foldl (fun acc p => acc.addNodePredicted p.1 p.2) g

/-- Result of one re-scoring call: the graph, the new
`_scores_recalculated_at`, and whether the scheduler queue's
`recalculate_priorities` was invoked. -/
structure RescoreOut where
  g : Graph
  recalculated_at : Nat
  reprioritized : Bool
deriving Repr, DecidableEq

/-- The body of `_recalculate_link_scores` past the threshold check:
gather the pending links, score them in one `get_link_scores` call
(`scorer` — the spider scores with its current classifiers), write the
results back as `predicted_scores`, reprioritize the queue, and record
the response count.

`pending` is the external `scheduler_queue.iter_active_node_ids()`. -/
def recalcRun (scorer : List LinkDict → List ScoresDict) (g : Graph)
    (pending : List Nat) (response_count : Nat) : Option RescoreOut :=
  match gatherPending g pending with
  | none => none
  | some pairs =>
    let links := pairs.map Prod.fst
    let ids := pairs.map Prod.snd
    let linkScores := scorer links
    some ⟨applyPredicted g (ids.zip linkScores), response_count, true⟩

/-- `AdaptiveSpider.recalculate_link_scores` (the periodic task): calls
`_recalculate_link_scores(min_resp_count=max(500, len(domain_scores)))`,
which returns immediately — touching nothing and not reprioritizing —
unless the responses processed since the last completed re-score
strictly exceed that threshold. -/
def recalculate_link_scores (scorer : List LinkDict → List ScoresDict)
    (g : Graph) (pending : List Nat)
    (response_count recalculated_at domainCount : Nat) : Option RescoreOut :=
  let minRespCount : Int := max 500 domainCount
  if (response_count : Int) - (recalculated_at : Int) ≤ minRespCount then
    some ⟨g, recalculated_at, false⟩
  else recalcRun scorer g pending response_count

/-! ## Child generation (`generate_out_nodes`) -/

/-- The `G.add_node(node_id, url=…, visited=False, ok=None, scores=None,
response_id=None, predicted_scores=scores)` write for a fresh child
node. -/
def Graph.addNodeChild (g : Graph) (n : Nat) (url : String)
    (sc : ScoresDict) : Graph :=
  let old := (g.getNode n).getD {}
  g.setNode n
    { old with
      url := some url
      visited := some false
      ok := none
      scores := none
      response_id := none
      predicted_scores := some sc }

/-- `AdaptiveSpider.generate_out_nodes(response, this_node_id)`.

`links` is the (already shuffled) list of extracted in-domain link
dicts; `scorer` is `get_link_scores` with the spider's current
classifiers.  Each link allocates a fresh id from the shared counter,
adds the child node with its predicted scores, and adds the parent
edge; the scrapy request yielded for it carries the new id.  Returns
the new state and the freshly allocated ids, in order. -/
def genStep (this_id : Nat) (acc : SpiderState × List Nat)
    (ls : LinkDict × ScoresDict) : SpiderState × List Nat :=
  -- one iteration of the `for link, scores in zip(links, link_scores)` loop
  let nid := acc.1.next
  let g1 := acc.1.g.addNodeChild nid ls.1.url ls.2
  let g2 := g1.addEdge this_id nid ls.1
  ({ acc.1 with g := g2, next := nid + 1 }, acc.2 ++ [nid])

def generate_out_nodes (scorer : List LinkDict → List ScoresDict)
    (st : SpiderState) (this_id : Nat) (links : List LinkDict) :
    SpiderState × List Nat :=
  (links.zip (scorer links)).foldl (genStep this_id) (st, [])

/-! ## The off-domain drop handler -/

/-- The `G.add_node(node_id, visited=True, ok=False, scores=…,
response_id=…)` merge of `on_offdomain_request_dropped` (no `url`
supplied, so it is kept). -/
def Graph.addNodeDropped (g : Graph) (n : Nat) (sc : ScoresDict)
    (rid : Nat) : Graph :=
  let old := (g.getNode n).getD {}
  g.setNode n
    { old with
      visited := some true
      ok := some false
      scores := some sc
      response_id := some rid }

/-! ## Per-visit orchestration and the event machine -/

/-- Events driving the spider: a response arriving at `parse` (with the
links the external extractor produces for it, post-shuffle), a firing
of the periodic re-scoring task (with the frontier's pending ids), and
an off-domain request dropped by the scheduler. -/
inductive Event where
  | visit (r : Response) (links : List LinkDict)
  | rescore (pending : List Nat)
  | drop (nid : Option Nat)
deriving Repr

/-- A response's `meta` node id is valid when it was issued by
`generate_out_nodes`: it names an existing non-seed node.  Scrapy
responses can only carry ids the spider itself put into a request, so
the step functions are restricted to such events. -/
def validMeta (st : SpiderState) : Option Nat → Bool
  | none => true
  | some n => (st.g.getNode n).isSome && !(st.seeds.contains n)

/-- `AdaptiveSpider.parse(response)`:
`increase_response_count` (from the spider base class — it advances
`self.response_count` by one), `update_response_node`,
`update_domain_scores`, `update_classifiers` (which mutates only the
external classifier objects — its batch is `update_classifiers` above),
then, for ok responses only, `generate_out_nodes`.

Returns the state and the ids allocated during the visit. -/
def stepVisitTail (scorer : List LinkDict → List ScoresDict)
    (r : Response) (st1 : SpiderState) (node_id : Nat)
    (links : List LinkDict) (allocs : List Nat) :
    Option (SpiderState × List Nat) :=
  -- the part of `parse` after `update_response_node`: domain-score
  -- update, classifier update (external), and — for ok responses —
  -- child generation.  `allocs` carries the ids allocated so far.
  match update_domain_scores st1 r node_id with
  | none => none
  | some st2 =>
    match st2.g.getNode node_id with
    | none => none
    | some d =>
      if d.ok = some true then
        let out := generate_out_nodes scorer st2 node_id links
        some (out.1, allocs ++ out.2)
      else some (st2, allocs)

def stepVisit (scorer : List LinkDict → List ScoresDict)
    (formTypes : List String) (st : SpiderState) (r : Response)
    (links : List LinkDict) : Option (SpiderState × List Nat) :=
  if validMeta st r.metaNodeId then
    let st0 := { st with response_count := st.response_count + 1 }
    let seedAllocs : List Nat := match r.metaNodeId with
      | none => [st0.next]
      | some _ => []
    let upd := update_response_node formTypes st0 r
    stepVisitTail scorer r upd.1 upd.2 links seedAllocs
  else none

/-- `AdaptiveSpider.on_offdomain_request_dropped(request)` (after the
base-class bookkeeping): a request without a truthy `node_id` (absent,
or id `0`, which is falsy in Python) is only logged; otherwise the node
is recorded as a failed visit and added to the replay set. -/
def stepDrop (formTypes : List String) (st : SpiderState) :
    Option Nat → Option (SpiderState × List Nat)
  | none => some (st, [])
  | some 0 => some (st, [])
  | some n =>
    if validMeta st (some n) then
      some ({ st with
              g := st.g.addNodeDropped n (get_constant_scores formTypes 0)
                st.response_count
              replay := insertId st.replay n }, [])
    else none

/-- A firing of the `update_link_scores_task` timer. -/
def stepRescore (scorer : List LinkDict → List ScoresDict)
    (st : SpiderState) (pending : List Nat) :
    Option (SpiderState × List Nat) :=
  match recalculate_link_scores scorer st.g pending st.response_count
      st.recalculated_at st.domains.len with
  | none => none
  | some out =>
    some ({ st with g := out.g, recalculated_at := out.recalculated_at }, [])

/-- One event step. -/
def step (scorer : List LinkDict → List ScoresDict)
    (formTypes : List String) (st : SpiderState) :
    Event → Option (SpiderState × List Nat)
  | .visit r links => stepVisit scorer formTypes st r links
  | .rescore pending => stepRescore scorer st pending
  | .drop nid => stepDrop formTypes st nid

/-- A whole event sequence; also returns the concatenated trace of
allocated node ids. -/
def run (scorer : List LinkDict → List ScoresDict)
    (formTypes : List String) (st : SpiderState) :
    List Event → Option (SpiderState × List Nat)
  | [] => some (st, [])
  | e :: rest =>
    match step scorer formTypes st e with
    | none => none
    | some out =>
      match run scorer formTypes out.1 rest with
      | none => none
      | some out2 => some (out2.1, out.2 ++ out2.2)

/-- The spider's state right after `__init__`: empty graph, counter at
zero, empty replay set, fresh domain tracker. -/
def initialState (formTypes : List String) : SpiderState :=
  ⟨⟨[], []⟩, 0, [], [], 0, 0, MaxScores.init formTypes⟩

/-! ## Invariants -/

/-- The forest shape of the crawl graph: seed nodes have no incoming
edge, every other node has exactly one. -/
def ForestG (g : Graph) (seeds : List Nat) : Prop :=
  ∀ n ∈ g.nodeIds, (n ∈ seeds → g.inDeg n = 0) ∧ (n ∉ seeds → g.inDeg n = 1)

/-- The forest shape, at the level of spider states. -/
def Forest (st : SpiderState) : Prop :=
  ForestG st.g st.seeds

/-- The inductive invariant tying the crawl graph to the id counter and
the seed bookkeeping. -/
structure InvG (g : Graph) (next : Nat) (seeds : List Nat) : Prop where
  nodup : g.nodeIds.Nodup
  lt : ∀ n ∈ g.nodeIds, n < next
  seedsLt : ∀ n ∈ seeds, n < next
  edgeDst : ∀ e ∈ g.edges, e.dst ∈ g.nodeIds
  forest : ForestG g seeds

/-- The invariant of the spider state. -/
def Inv (st : SpiderState) : Prop :=
  InvG st.g st.next st.seeds

/-! ## Fixed external instantiations used by concrete computations -/

/-- A degenerate prediction pipeline: probability 0 for every link. -/
def ppZero : List ℚ → List LinkDict → List ℚ :=
  fun _ xs => xs.map (fun _ => 0)

/-- A prediction pipeline returning no rows at all. -/
def ppNil : List ℚ → List LinkDict → List ℚ :=
  fun _ _ => []

/-- A scorer assigning the empty score dict to every link. -/
def scorerEmpty : List LinkDict → List ScoresDict :=
  fun ls => ls.map (fun _ => [])

/-! ## Concrete fixtures for the counterexamples and witnesses -/

/-- A node already visited (response number 1). -/
def c1Node : NodeData :=
  ⟨some "http://d/p", some true, some true, some [("x", 1)], some 1, none⟩

/-- A state whose node 7 is already visited; 5 responses processed. -/
def c1State : SpiderState :=
  ⟨⟨[(7, c1Node)], []⟩, 8, [], [], 0, 5, MaxScores.init ["x"]⟩

/-- A second response arriving for node 7. -/
def c1Resp : Response :=
  ⟨"http://d/p", 200, true, some 7, "d", [("x", 0)]⟩

def c2L1 : LinkDict := ⟨"http://d/1", 11⟩

def c2L2 : LinkDict := ⟨"http://d/2", 22⟩

/-- Visited seed node. -/
def c2Seed : NodeData :=
  ⟨some "http://d/", some true, some true, some [("x", 1)], some 1, none⟩

/-- Pending child node 1 (about to be visited). -/
def c2Child1 : NodeData :=
  ⟨some "http://d/1", some false, none, none, none, some [("x", 1/2)]⟩

/-- Already-visited child node 2 (in the replay buffer). -/
def c2Child2 : NodeData :=
  ⟨some "http://d/2", some true, some true, some [("x", 1)], some 2, some [("x", 1/2)]⟩

/-- Crawl graph: seed 0 with children 1 and 2. -/
def c2Graph : Graph :=
  ⟨[(0, c2Seed), (1, c2Child1), (2, c2Child2)], [⟨0, 1, c2L1⟩, ⟨0, 2, c2L2⟩]⟩

/-- State before node 1's response arrives: replay buffer holds node 2,
`replay_N = 1` is configured in the scenario below. -/
def c2State : SpiderState :=
  ⟨c2Graph, 3, [0], [2], 0, 2, MaxScores.init ["x"]⟩

/-- The response visiting node 1. -/
def c2Resp : Response :=
  ⟨"http://d/1", 200, true, some 1, "d", [("x", 0)]⟩

/-- The state `update_classifiers` sees during node 1's visit: `parse`
has already bumped the response count and run `update_response_node`. -/
def c2St1 : SpiderState :=
  (update_response_node ["x"]
    { c2State with response_count := c2State.response_count + 1 } c2Resp).1

/-- A seed response with an empty content-score dict (witness input). -/
def wResp : Response := ⟨"http://d/", 200, true, none, "d", []⟩

/-- A single extracted link (witness input). -/
def wLink : LinkDict := ⟨"http://d/1", 11⟩

/-- The spider state after visiting `wResp` and generating one child
from `wLink`, starting from the initial state. -/
def wOut : SpiderState :=
  ⟨⟨[(0, ⟨some "http://d/", some true, some true, some [], some 1, none⟩),
     (1, ⟨some "http://d/1", some false, none, none, none, some []⟩)],
    [⟨0, 1, wLink⟩]⟩,
   2, [0], [], 0, 1, MaxScores.init ["x"]⟩

/-! # Theorems -/

/-! ## Association-list lemmas -/

theorem dictGet_dictSet_self {κ β : Type} [DecidableEq κ]
    (d : List (κ × β)) (k : κ) (v : β) :
    dictGet (dictSet d k v) k = some v := by
  induction d with
  | nil => simp [dictGet, dictSet]
  | cons hd t ih =>
    obtain ⟨k1, v1⟩ := hd
    by_cases hk : k1 = k
    · subst hk; simp [dictGet, dictSet]
    · simp [dictGet, dictSet, hk, ih]

theorem dictGet_dictSet_ne {κ β : Type} [DecidableEq κ]
    (d : List (κ × β)) (k k2 : κ) (v : β) (h : k2 ≠ k) :
    dictGet (dictSet d k v) k2 = dictGet d k2 := by
  have h1 : ¬(k = k2) := fun hh => h hh.symm
  induction d with
  | nil => simp [dictGet, dictSet, h1]
  | cons hd t ih =>
    obtain ⟨k1, v1⟩ := hd
    by_cases hk : k1 = k
    · subst hk; simp [dictGet, dictSet, h1]
    · simp [dictGet, dictSet, hk, ih]

theorem dictGet_eq_none_iff {κ β : Type} [DecidableEq κ]
    (d : List (κ × β)) (k : κ) :
    dictGet d k = none ↔ k ∉ d.map Prod.fst := by
  induction d with
  | nil => simp [dictGet]
  | cons hd t ih =>
    obtain ⟨k1, v1⟩ := hd
    by_cases hk : k1 = k
    · subst hk; simp [dictGet]
    · simp [dictGet, hk, ih, Ne.symm hk]

theorem map_fst_dictSet_of_mem {κ β : Type} [DecidableEq κ]
    (d : List (κ × β)) (k : κ) (v : β) (h : k ∈ d.map Prod.fst) :
    (dictSet d k v).map Prod.fst = d.map Prod.fst := by
  induction d with
  | nil => simp at h
  | cons hd t ih =>
    obtain ⟨k1, v1⟩ := hd
    by_cases hk : k1 = k
    · subst hk; simp [dictSet]
    · have h2 : k ∈ t.map Prod.fst := by
        rcases List.mem_cons.mp h with h3 | h3
        · exact absurd h3.symm hk
        · exact h3
      simp [dictSet, hk, ih h2]

theorem map_fst_dictSet_of_not_mem {κ β : Type} [DecidableEq κ]
    (d : List (κ × β)) (k : κ) (v : β) (h : k ∉ d.map Prod.fst) :
    (dictSet d k v).map Prod.fst = d.map Prod.fst ++ [k] := by
  induction d with
  | nil => simp [dictSet]
  | cons hd t ih =>
    obtain ⟨k1, v1⟩ := hd
    have h1 : ¬(k1 = k) := fun hh => h (by simp [hh])
    have h2 : k ∉ t.map Prod.fst := fun hh => h (List.mem_cons_of_mem _ hh)
    simp [dictSet, h1, ih h2]

/-! ## Graph-access lemmas -/

theorem Graph.getNode_setNode_self (g : Graph) (n : Nat) (d : NodeData) :
    (g.setNode n d).getNode n = some d :=
  dictGet_dictSet_self g.nodes n d

theorem Graph.getNode_setNode_ne (g : Graph) (n m : Nat) (d : NodeData)
    (h : m ≠ n) : (g.setNode n d).getNode m = g.getNode m :=
  dictGet_dictSet_ne g.nodes n m d h

theorem Graph.edges_setNode (g : Graph) (n : Nat) (d : NodeData) :
    (g.setNode n d).edges = g.edges :=
  rfl

theorem Graph.inDeg_setNode (g : Graph) (n : Nat) (d : NodeData) (m : Nat) :
    (g.setNode n d).inDeg m = g.inDeg m :=
  rfl

theorem Graph.getNode_isSome_iff (g : Graph) (n : Nat) :
    (g.getNode n).isSome ↔ n ∈ g.nodeIds := by
  rw [Graph.getNode, Graph.nodeIds, Option.isSome_iff_ne_none]
  exact (not_iff_not.2 (dictGet_eq_none_iff g.nodes n)).trans not_not

theorem Graph.nodeIds_setNode_of_mem (g : Graph) (n : Nat) (d : NodeData)
    (h : n ∈ g.nodeIds) : (g.setNode n d).nodeIds = g.nodeIds :=
  map_fst_dictSet_of_mem g.nodes n d h

theorem Graph.nodeIds_setNode_of_not_mem (g : Graph) (n : Nat) (d : NodeData)
    (h : n ∉ g.nodeIds) : (g.setNode n d).nodeIds = g.nodeIds ++ [n] :=
  map_fst_dictSet_of_not_mem g.nodes n d h

/-! ## C7 — the domain reward tracker -/

/-- C7: over categories a and b, the sequence
`update("foo", a=0.1 b=0.3); update("foo", a=0.01 b=0.4);
update("bar", a=0.8)` yields `sum = (a 0.9, b 0.4)`,
`avg = (a 0.45, b 0.2)` and domain count 2; in general `update` lazily
creates a domain's entry at zero and takes a per-category running
maximum. -/
theorem c7_domain_reward_tracker :
    ((maxScoresDoctest.map MaxScores.sum = some [("a", 9/10), ("b", 2/5)]) ∧
     (maxScoresDoctest.map MaxScores.avg = some [("a", 9/20), ("b", 1/5)]) ∧
     (maxScoresDoctest.map MaxScores.len = some 2)) ∧
    (∀ (m : MaxScores) (dom : String), dictGet m.scores dom = none →
      m.update dom [] =
        some { m with scores := dictSet m.scores dom m.zeroScores }) ∧
    (∀ (m : MaxScores) (dom k : String) (v old : ℚ) (cur : ScoresDict),
      dictGet m.scores dom = some cur → dictGet cur k = some old →
      m.update dom [(k, v)] =
        some { m with
               scores := dictSet m.scores dom (dictSet cur k (max old v)) }) := by
  refine ⟨⟨?_, ?_, ?_⟩, ?_, ?_⟩
  · norm_num +decide [maxScoresDoctest, MaxScores.update, MaxScores.init,
      MaxScores.zeroScores, MaxScores.sum, dictGet, dictSet, dictGetD,
      updScores, max_def]
  · norm_num +decide [maxScoresDoctest, MaxScores.update, MaxScores.init,
      MaxScores.zeroScores, MaxScores.sum, MaxScores.avg, dictGet, dictSet,
      dictGetD, updScores, max_def]
  · norm_num +decide [maxScoresDoctest, MaxScores.update, MaxScores.init,
      MaxScores.zeroScores, MaxScores.len, dictGet, dictSet, dictGetD,
      updScores, max_def]
  · intro m dom h
    simp [MaxScores.update, h, updScores]
  · intro m dom k v old cur h1 h2
    simp [MaxScores.update, h1, h2, updScores]

/-- Witness for C7: the general conjuncts applied at concrete inputs. -/
theorem c7_domain_reward_tracker_witness :
    (MaxScores.init ["a"]).update "z" [] =
      some { MaxScores.init ["a"] with
             scores := dictSet (MaxScores.init ["a"]).scores "z"
               (MaxScores.init ["a"]).zeroScores } ∧
    (MaxScores.mk ["a"] [("d", [("a", 0)])]).update "d" [("a", 1)] =
      some { MaxScores.mk ["a"] [("d", [("a", 0)])] with
             scores := dictSet [("d", [("a", (0 : ℚ))])] "d"
               (dictSet [("a", (0 : ℚ))] "a" (max 0 1)) } :=
  ⟨c7_domain_reward_tracker.2.1 (MaxScores.init ["a"]) "z" rfl,
   c7_domain_reward_tracker.2.2 (MaxScores.mk ["a"] [("d", [("a", 0)])])
     "d" "a" 1 0 [("a", 0)] rfl rfl⟩

/-! ## C3 and C10 — `get_link_scores` lemmas -/

theorem setAll_length (ft : String) (ps : List ℚ) (ds : List ScoresDict) :
    (setAll ft ps ds).length = ds.length := by
  induction ps generalizing ds with
  | nil => cases ds <;> simp [setAll]
  | cons p ps ih => cases ds <;> simp [setAll, ih]

theorem setAll_get_self (ft : String) (q : ℚ) (ps : List ℚ)
    (ds : List ScoresDict) (hlen : ds.length ≤ ps.length)
    (hall : ∀ p ∈ ps, p = q) :
    ∀ d ∈ setAll ft ps ds, dictGet d ft = some q := by
  induction ps generalizing ds with
  | nil =>
    cases ds with
    | nil => simp [setAll]
    | cons d ds => simp at hlen
  | cons p ps ih =>
    cases ds with
    | nil => simp [setAll]
    | cons d ds =>
      intro d2 hd2
      rcases List.mem_cons.mp (by simpa [setAll] using hd2) with h | h
      · rw [h, dictGet_dictSet_self, hall p (by simp)]
      · exact ih ds (by simpa using hlen)
          (fun x hx => hall x (List.mem_cons_of_mem _ hx)) d2 h

theorem setAll_get_other (ft ft2 : String) (h : ft2 ≠ ft) (q : ℚ)
    (ps : List ℚ) (ds : List ScoresDict)
    (hall : ∀ d ∈ ds, dictGet d ft2 = some q) :
    ∀ d ∈ setAll ft ps ds, dictGet d ft2 = some q := by
  induction ps generalizing ds with
  | nil =>
    cases ds with
    | nil => simp [setAll]
    | cons d ds => simpa [setAll] using hall
  | cons p ps ih =>
    cases ds with
    | nil => simp [setAll]
    | cons d ds =>
      intro d2 hd2
      rcases List.mem_cons.mp (by simpa [setAll] using hd2) with hh | hh
      · rw [hh, dictGet_dictSet_ne _ _ _ _ h]
        exact hall d (by simp)
      · exact ih ds (fun x hx => hall x (List.mem_cons_of_mem _ hx)) d2 hh

theorem setAll_keys (ft : String) (ps : List ℚ) (ds : List ScoresDict)
    (done : List String) (hlen : ds.length ≤ ps.length)
    (hall : ∀ d ∈ ds, d.map Prod.fst = done) (hft : ft ∉ done) :
    ∀ d ∈ setAll ft ps ds, d.map Prod.fst = done ++ [ft] := by
  induction ps generalizing ds with
  | nil =>
    cases ds with
    | nil => simp [setAll]
    | cons d ds => simp at hlen
  | cons p ps ih =>
    cases ds with
    | nil => simp [setAll]
    | cons d ds =>
      intro d2 hd2
      rcases List.mem_cons.mp (by simpa [setAll] using hd2) with h | h
      · rw [h, map_fst_dictSet_of_not_mem _ _ _ (by rw [hall d (by simp)]; exact hft),
          hall d (by simp)]
      · exact ih ds (by simpa using hlen)
          (fun x hx => hall x (List.mem_cons_of_mem _ hx)) d2 h

theorem scoreStep_length (pp : List ℚ → List LinkDict → List ℚ)
    (links : List LinkDict) (scores : List ScoresDict) (pc : String × Clf) :
    (scoreStep pp links scores pc).length = scores.length :=
  setAll_length _ _ _

theorem foldl_scoreStep_length (pp : List ℚ → List LinkDict → List ℚ)
    (links : List LinkDict) (cl : List (String × Clf))
    (acc : List ScoresDict) :
    (cl.foldl (scoreStep pp links) acc).length = acc.length := by
  induction cl generalizing acc with
  | nil => rfl
  | cons c cl ih => rw [List.foldl_cons, ih, scoreStep_length]

theorem foldl_scoreStep_keeps (pp : List ℚ → List LinkDict → List ℚ)
    (links : List LinkDict) (cl : List (String × Clf))
    (acc : List ScoresDict) (ft : String) (q : ℚ)
    (hnot : ft ∉ cl.map Prod.fst)
    (hall : ∀ d ∈ acc, dictGet d ft = some q) :
    ∀ d ∈ cl.foldl (scoreStep pp links) acc, dictGet d ft = some q := by
  induction cl generalizing acc with
  | nil => simpa using hall
  | cons c cl ih =>
    have h1 : ft ≠ c.1 := fun hh => hnot (by simp [hh])
    have h2 : ft ∉ cl.map Prod.fst := fun hh => hnot (by simp [hh])
    rw [List.foldl_cons]
    exact ih _ h2 (setAll_get_other c.1 ft h1 q _ acc hall)

theorem c3_core (pp : List ℚ → List LinkDict → List ℚ)
    (links : List LinkDict) (cl : List (String × Clf))
    (acc : List ScoresDict) (ft : String) (c : Clf)
    (hlen : acc.length = links.length)
    (hmem : (ft, c) ∈ cl) (hc : c.coef = none)
    (hkeys : (cl.map Prod.fst).Nodup) :
    ∀ d ∈ cl.foldl (scoreStep pp links) acc, dictGet d ft = some (1/2) := by
  induction cl generalizing acc with
  | nil => simp at hmem
  | cons hd tl ih =>
    rw [List.foldl_cons]
    rcases List.mem_cons.mp hmem with he | he
    · have hft : hd.1 = ft := by rw [← he]
      have hcc : hd.2 = c := by rw [← he]
      have hstep : ∀ d ∈ scoreStep pp links acc hd, dictGet d ft = some (1/2) := by
        rw [scoreStep, hcc, hc, hft]
        exact setAll_get_self ft (1/2) _ acc (by simp [hlen]) (by simp)
      have hnot : ft ∉ tl.map Prod.fst := by
        have := (List.nodup_cons.mp hkeys).1
        rwa [hft] at this
      exact foldl_scoreStep_keeps pp links tl _ ft (1/2) hnot hstep
    · exact ih _ (by rw [scoreStep_length, hlen]) he (List.nodup_cons.mp hkeys).2

/-- C3: for every category whose classifier has received zero training
updates (`coef_` still `None`) and every non-empty link list, every
returned score dict gives that category probability exactly 0.5. -/
theorem c3_unfitted_predicts_half (pp : List ℚ → List LinkDict → List ℚ)
    (cl : List (String × Clf)) (links : List LinkDict) (ft : String) (c : Clf)
    (hmem : (ft, c) ∈ cl) (hc : c.coef = none)
    (hkeys : (cl.map Prod.fst).Nodup) (hne : links ≠ []) :
    ∀ d ∈ get_link_scores pp cl links, dictGet d ft = some (1/2) := by
  rw [get_link_scores, if_neg (by simpa [List.isEmpty_iff] using hne)]
  exact c3_core pp links cl _ ft c (by simp) hmem hc hkeys

/-- Witness for C3: one unfitted classifier, one link; the score dict
of that link carries 0.5. -/
theorem c3_unfitted_predicts_half_witness :
    dictGet [("x", (1 : ℚ)/2)] "x" = some (1/2) :=
  c3_unfitted_predicts_half ppNil [("x", ⟨none⟩)] [⟨"u", 0⟩] "x" ⟨none⟩
    (by simp) rfl (by simp) (by simp)
    [("x", (1 : ℚ)/2)]
    (by simp [get_link_scores, scoreStep, setAll, dictSet])

theorem c10_core (pp : List ℚ → List LinkDict → List ℚ)
    (links : List LinkDict)
    (hpp : ∀ cfs xs, (pp cfs xs).length = xs.length)
    (cl : List (String × Clf)) (acc : List ScoresDict) (done : List String)
    (hlen : acc.length = links.length)
    (hacc : ∀ d ∈ acc, d.map Prod.fst = done)
    (hfresh : ∀ k ∈ cl.map Prod.fst, k ∉ done)
    (hnodup : (cl.map Prod.fst).Nodup) :
    ∀ d ∈ cl.foldl (scoreStep pp links) acc,
      d.map Prod.fst = done ++ cl.map Prod.fst := by
  induction cl generalizing acc done with
  | nil =>
    intro d hd
    simpa using hacc d hd
  | cons p0 tl ih =>
    intro d hd
    rw [List.foldl_cons] at hd
    have hplen : acc.length ≤
        (match p0.2.coef with
         | none => links.map (fun _ => (1/2 : ℚ))
         | some c => pp c links).length := by
      cases hh : p0.2.coef <;> simp [hlen, hpp]
    have hstep : ∀ d2 ∈ scoreStep pp links acc p0,
        d2.map Prod.fst = done ++ [p0.1] := by
      rw [scoreStep]
      exact setAll_keys p0.1 _ acc done hplen hacc
        (hfresh p0.1 (by simp))
    have h2 := ih (scoreStep pp links acc p0) (done ++ [p0.1])
      (by rw [scoreStep_length, hlen]) hstep
      (by
        intro k hk
        simp only [List.mem_append, List.mem_singleton]
        rintro (hkd | hkd)
        · exact hfresh k (by simp [hk]) hkd
        · subst hkd
          exact (List.nodup_cons.mp hnodup).1 hk)
      (List.nodup_cons.mp hnodup).2 d hd
    simpa [List.append_assoc] using h2

/-- C10: `get_link_scores` returns one score dict per input link (empty
input gives the empty list), and — when the external probability
pipeline returns one row per input, as sklearn does — every returned
dict's key list is exactly the fixed category list of the classifier
map. -/
theorem c10_link_scores_shape (pp : List ℚ → List LinkDict → List ℚ)
    (cl : List (String × Clf)) (links : List LinkDict)
    (hpp : ∀ cfs xs, (pp cfs xs).length = xs.length)
    (hkeys : (cl.map Prod.fst).Nodup) :
    (get_link_scores pp cl links).length = links.length ∧
    (links = [] → get_link_scores pp cl links = []) ∧
    (∀ d ∈ get_link_scores pp cl links, d.map Prod.fst = cl.map Prod.fst) := by
  cases links with
  | nil => simp [get_link_scores]
  | cons l ls =>
    refine ⟨?_, by simp, ?_⟩
    · rw [get_link_scores, if_neg (by simp)]
      rw [foldl_scoreStep_length]
      simp
    · rw [get_link_scores, if_neg (by simp)]
      intro d hd
      simpa using c10_core pp (l :: ls) hpp cl _ [] (by simp)
        (by simp) (by simp) hkeys d hd

/-- Witness for C10: one fitted classifier, one link. -/
theorem c10_link_scores_shape_witness :
    (get_link_scores ppZero [("x", ⟨some []⟩)] [⟨"u", 0⟩]).length =
      [(⟨"u", 0⟩ : LinkDict)].length :=
  (c10_link_scores_shape ppZero [("x", ⟨some []⟩)] [⟨"u", 0⟩]
    (fun cfs xs => by simp [ppZero]) (by simp)).1

/-! ## C1 — a second visit-recording attempt -/

/-- C1 counterexample: the claim says a second visit-recording attempt
on an already-visited node fails with a `DoubleVisit` contract
violation rather than updating the node.  In the source there is no
such check: `update_response_node` on node 7 — already visited with
response number 1 — returns normally and overwrites the node's visit
data (new response number 5, new observed scores). -/
theorem c1_counterexample :
    (update_response_node ["x"] c1State c1Resp).2 = 7 ∧
    ((update_response_node ["x"] c1State c1Resp).1.g.getNode 7).map
      NodeData.response_id = some (some 5) ∧
    ((update_response_node ["x"] c1State c1Resp).1.g.getNode 7).map
      NodeData.scores = some (some [("x", 0)]) ∧
    (c1State.g.getNode 7).map NodeData.visited = some (some true) ∧
    (c1State.g.getNode 7).map NodeData.response_id = some (some 1) := by
  refine ⟨?_, ?_, ?_, ?_, ?_⟩ <;>
    simp [update_response_node, c1State, c1Resp, c1Node, Graph.addNodeVisited,
      Graph.setNode, Graph.getNode, dictGet, dictSet, responseOk,
      observedScores, get_constant_scores]

/-- C1 amended: recording a visit for an already-visited node does not
fail — it returns that node's id and silently overwrites the node's
`url`, `visited`, `ok`, `scores` and `response_id` with the new
response's data (keeping `predicted_scores`). -/
theorem c1_amended_overwrite (formTypes : List String) (st : SpiderState)
    (r : Response) (n : Nat) (old : NodeData)
    (hmeta : r.metaNodeId = some n)
    (hold : st.g.getNode n = some old)
    (hvisited : old.visited = some true) :
    (update_response_node formTypes st r).2 = n ∧
    (update_response_node formTypes st r).1.g.getNode n =
      some { old with
             url := some r.url
             visited := some true
             ok := some (responseOk r)
             scores := some (observedScores formTypes r)
             response_id := some st.response_count } := by
  constructor
  · simp [update_response_node, hmeta]
  · simp [update_response_node, hmeta, Graph.addNodeVisited, hold,
      Graph.getNode_setNode_self]

/-- Witness for C1's amended statement, at the concrete double-visit
scenario. -/
theorem c1_amended_overwrite_witness :
    (update_response_node ["x"] c1State c1Resp).2 = 7 ∧
    (update_response_node ["x"] c1State c1Resp).1.g.getNode 7 =
      some { c1Node with
             url := some c1Resp.url
             visited := some true
             ok := some (responseOk c1Resp)
             scores := some (observedScores ["x"] c1Resp)
             response_id := some c1State.response_count } :=
  c1_amended_overwrite ["x"] c1State c1Resp 7 c1Node rfl rfl rfl

/-! ## C2 — replay buffer vs. the current visit -/

/-- C2 counterexample: the claim says a visited node's id enters the
replay buffer only after that visit's train call, so it can never be
sampled into its own batch.  In the source, `update_response_node`
inserts the id (here node 1) before `update_classifiers` runs, so at
train time the buffer already contains it; `[1]` is then a legal
without-replacement draw of size `replay_N = 1` from that buffer
(size 2), and the resulting batch contains node 1's own example twice. -/
theorem c2_counterexample :
    (1 : Nat) ∈ c2St1.replay ∧
    ([1] : List Nat).length = 1 ∧ ([1] : List Nat).Nodup ∧
    update_classifiers c2St1.g c2St1.replay 1 [1] ["x"] 1 =
      some (some ⟨[c2L1, c2L1], [("x", [false, false])]⟩) := by
  refine ⟨?_, rfl, by simp, ?_⟩
  · simp [c2St1, update_response_node, c2State, c2Resp, insertId]
  · norm_num [c2St1, update_response_node, c2State, c2Resp, c2Graph, c2Seed,
      c2Child1, c2Child2, c2L1, c2L2, update_classifiers,
      Graph.incomingLinksChecked, Graph.incomingLinks, Graph.getNode,
      Graph.setNode, Graph.addNodeVisited, dictGet, dictSet, dictGetD,
      freshY, getLabel, extendY, replayFold, insertId, responseOk,
      observedScores, get_constant_scores]

/-- C2 amended: for every visit of a non-seed node, the node's own id
is inserted into the replay buffer by `update_response_node`, i.e.
before the visit's train call (`update_classifiers` runs on the state
`update_response_node` returns), so the replay draw for that visit is
taken from a buffer that already contains the node's own id and may
return it into its own batch. -/
theorem c2_amended_buffer_before_train (formTypes : List String)
    (st : SpiderState) (r : Response) (n : Nat)
    (hmeta : r.metaNodeId = some n) :
    n ∈ (update_response_node formTypes st r).1.replay := by
  simp only [update_response_node, hmeta]
  by_cases h : n ∈ st.replay
  · simpa [insertId, h] using h
  · simp [insertId, h]

/-- Witness for C2's amended statement at the concrete scenario. -/
theorem c2_amended_buffer_before_train_witness :
    (1 : Nat) ∈ (update_response_node ["x"]
      { c2State with response_count := c2State.response_count + 1 }
      c2Resp).1.replay :=
  c2_amended_buffer_before_train ["x"]
    { c2State with response_count := c2State.response_count + 1 } c2Resp 1 rfl

/-! ## C4 and C6 — the re-scoring pass -/

theorem applyPredicted_cons (g : Graph) (p : Nat × ScoresDict)
    (ps : List (Nat × ScoresDict)) :
    applyPredicted g (p :: ps) = applyPredicted (g.addNodePredicted p.1 p.2) ps :=
  rfl

theorem applyPredicted_frame (pairs : List (Nat × ScoresDict)) (g : Graph)
    (n : Nat) (d : NodeData) (h : g.getNode n = some d) :
    ∃ d2, (applyPredicted g pairs).getNode n = some d2 ∧
      d2.url = d.url ∧ d2.visited = d.visited ∧ d2.ok = d.ok ∧
      d2.scores = d.scores ∧ d2.response_id = d.response_id := by
  induction pairs generalizing g d with
  | nil => exact ⟨d, h, rfl, rfl, rfl, rfl, rfl⟩
  | cons p ps ih =>
    rw [applyPredicted_cons]
    by_cases hn : n = p.1
    · have hget : (g.addNodePredicted p.1 p.2).getNode n =
          some { d with predicted_scores := some p.2 } := by
        subst hn
        simp [Graph.addNodePredicted, h, Graph.getNode_setNode_self]
      obtain ⟨d2, h2, hu, hv, ho, hs, hr⟩ := ih _ _ hget
      exact ⟨d2, h2, hu, hv, ho, hs, hr⟩
    · have hget : (g.addNodePredicted p.1 p.2).getNode n = some d := by
        rw [Graph.addNodePredicted, Graph.getNode_setNode_ne _ _ _ _ hn]
        exact h
      exact ih _ _ hget

/-- C4: a re-scoring pass changes at most `predicted_scores`: for every
node present before the pass, its `url`, `visited`, `ok`, observed
`scores` and `response_id` are unchanged afterwards. -/
theorem c4_rescore_frame (scorer : List LinkDict → List ScoresDict)
    (g : Graph) (pending : List Nat) (rc rat dc : Nat) (out : RescoreOut)
    (hout : recalculate_link_scores scorer g pending rc rat dc = some out)
    (n : Nat) (d : NodeData) (hn : g.getNode n = some d) :
    (out.g.getNode n).map NodeData.url = some d.url ∧
    (out.g.getNode n).map NodeData.visited = some d.visited ∧
    (out.g.getNode n).map NodeData.ok = some d.ok ∧
    (out.g.getNode n).map NodeData.scores = some d.scores ∧
    (out.g.getNode n).map NodeData.response_id = some d.response_id := by
  rw [recalculate_link_scores] at hout
  split at hout
  · cases hout
    simp [hn]
  · rw [recalcRun] at hout
    cases hgp : gatherPending g pending with
    | none => rw [hgp] at hout; cases hout
    | some pairs =>
      rw [hgp] at hout
      cases hout
      obtain ⟨d2, h2, hu, hv, ho, hs, hr⟩ :=
        applyPredicted_frame ((pairs.map Prod.snd).zip (scorer (pairs.map Prod.fst)))
          g n d hn
      simp [h2, hu, hv, ho, hs, hr]

/-- Witness for C4: a pass over an empty frontier leaves node 7
untouched. -/
theorem c4_rescore_frame_witness :
    ((RescoreOut.mk c1State.g 0 false).g.getNode 7).map NodeData.url =
      some c1Node.url ∧
    ((RescoreOut.mk c1State.g 0 false).g.getNode 7).map NodeData.visited =
      some c1Node.visited ∧
    ((RescoreOut.mk c1State.g 0 false).g.getNode 7).map NodeData.ok =
      some c1Node.ok ∧
    ((RescoreOut.mk c1State.g 0 false).g.getNode 7).map NodeData.scores =
      some c1Node.scores ∧
    ((RescoreOut.mk c1State.g 0 false).g.getNode 7).map NodeData.response_id =
      some c1Node.response_id :=
  c4_rescore_frame scorerEmpty c1State.g [] 0 0 0 ⟨c1State.g, 0, false⟩
    rfl 7 c1Node rfl

/-- C6: the periodic re-scoring task mutates nothing and skips
reprioritization unless the responses processed since the last
completed re-score strictly exceed `max(500, number of seen domains)`;
when they do, a completed pass reprioritizes and records the current
response count. -/
theorem c6_rescore_threshold (scorer : List LinkDict → List ScoresDict)
    (g : Graph) (pending : List Nat) (rc rat dc : Nat) :
    ((rc : Int) - (rat : Int) ≤ max 500 (dc : Int) →
      recalculate_link_scores scorer g pending rc rat dc =
        some ⟨g, rat, false⟩) ∧
    (max 500 (dc : Int) < (rc : Int) - (rat : Int) →
      ∀ out, recalculate_link_scores scorer g pending rc rat dc = some out →
        out.reprioritized = true ∧ out.recalculated_at = rc) := by
  constructor
  · intro h
    rw [recalculate_link_scores, if_pos h]
  · intro h out hout
    rw [recalculate_link_scores, if_neg (not_le.mpr h)] at hout
    rw [recalcRun] at hout
    cases hgp : gatherPending g pending with
    | none => rw [hgp] at hout; cases hout
    | some pairs =>
      rw [hgp] at hout
      cases hout
      exact ⟨rfl, rfl⟩

/-- Witness for C6: below the threshold (0 responses) nothing happens;
above it (501 responses, floor 500) a completed pass reprioritizes. -/
theorem c6_rescore_threshold_witness :
    recalculate_link_scores scorerEmpty ⟨[], []⟩ [] 0 0 0 =
      some ⟨⟨[], []⟩, 0, false⟩ ∧
    (RescoreOut.mk ⟨[], []⟩ 501 true).reprioritized = true ∧
    (RescoreOut.mk ⟨[], []⟩ 501 true).recalculated_at = 501 :=
  ⟨(c6_rescore_threshold scorerEmpty ⟨[], []⟩ [] 0 0 0).1 (by decide),
   (c6_rescore_threshold scorerEmpty ⟨[], []⟩ [] 501 0 0).2 (by decide)
     ⟨⟨[], []⟩, 501, true⟩ rfl⟩

/-! ## C5 — training-batch composition -/

theorem freshY_spec (g : Graph) (n : Nat) (count : Nat) (fts : List String)
    (h : ∀ ft ∈ fts, (getLabel g n ft).isSome) :
    ∃ y0, freshY g n count fts = some y0 ∧ y0.map Prod.fst = fts ∧
      ∀ p ∈ y0, p.2.length = count := by
  induction fts with
  | nil => exact ⟨[], rfl, rfl, by simp⟩
  | cons ft rest ih =>
    obtain ⟨b, hb⟩ := Option.isSome_iff_exists.mp (h ft (by simp))
    obtain ⟨tl, htl, hkeys, hlens⟩ :=
      ih (fun x hx => h x (List.mem_cons_of_mem _ hx))
    refine ⟨(ft, List.replicate count b) :: tl, ?_, ?_, ?_⟩
    · rw [freshY, hb, htl]
    · simp [hkeys]
    · intro p hp
      rcases List.mem_cons.mp hp with hh | hh
      · rw [hh]; simp
      · exact hlens p hh

theorem extendY_spec (g : Graph) (i : Nat) (count : Nat)
    (y : List (String × List Bool)) (L : Nat)
    (h : ∀ p ∈ y, (getLabel g i p.1).isSome)
    (hlen : ∀ p ∈ y, p.2.length = L) :
    ∃ y2, extendY g i count y = some y2 ∧ y2.map Prod.fst = y.map Prod.fst ∧
      ∀ q ∈ y2, q.2.length = L + count := by
  induction y with
  | nil => exact ⟨[], rfl, rfl, by simp⟩
  | cons p rest ih =>
    obtain ⟨ft, ys⟩ := p
    obtain ⟨b, hb⟩ := Option.isSome_iff_exists.mp (h (ft, ys) (by simp))
    obtain ⟨tl, htl, hkeys, hlens⟩ :=
      ih (fun x hx => h x (List.mem_cons_of_mem _ hx))
        (fun x hx => hlen x (List.mem_cons_of_mem _ hx))
    refine ⟨(ft, ys ++ List.replicate count b) :: tl, ?_, ?_, ?_⟩
    · rw [extendY, hb, htl]
    · simp [hkeys]
    · intro q hq
      rcases List.mem_cons.mp hq with hh | hh
      · rw [hh]
        simp [hlen (ft, ys) (by simp)]
      · exact hlens q hh

theorem replayFold_spec (g : Graph) (fts : List String) (sample : List Nat)
    (hs : ∀ i ∈ sample, ∃ l, g.incomingLinksChecked i = some [l] ∧
          ∀ ft ∈ fts, (getLabel g i ft).isSome) :
    ∀ (x : List LinkDict) (y : List (String × List Bool)),
    y.map Prod.fst = fts →
    (∀ p ∈ y, p.2.length = x.length) →
    ∃ x2 y2, replayFold g sample x y = some (x2, y2) ∧
      x2 = x ++ sample.flatMap (fun i => (g.incomingLinksChecked i).getD []) ∧
      x2.length = x.length + sample.length ∧
      y2.map Prod.fst = fts ∧
      (∀ p ∈ y2, p.2.length = x2.length) := by
  induction sample with
  | nil =>
    intro x y hk hl
    exact ⟨x, y, rfl, by simp, by simp, hk, by simpa using hl⟩
  | cons i rest ih =>
    intro x y hk hl
    obtain ⟨l, hi, hil⟩ := hs i (by simp)
    have hlbl : ∀ p ∈ y, (getLabel g i p.1).isSome := by
      intro p hp
      exact hil p.1 (hk ▸ List.mem_map_of_mem Prod.fst hp)
    obtain ⟨y2, hy2, hy2k, hy2l⟩ :=
      extendY_spec g i 1 y x.length hlbl hl
    obtain ⟨x3, y3, hfold, hx3, hx3l, hy3k, hy3l⟩ :=
      ih (fun j hj => hs j (List.mem_cons_of_mem _ hj)) (x ++ [l]) y2
        (hy2k.trans hk)
        (by
          intro p hp
          rw [hy2l p hp]
          simp)
    refine ⟨x3, y3, ?_, ?_, ?_, hy3k, hy3l⟩
    · rw [replayFold, hi]
      simp only [List.isEmpty_cons, Bool.false_eq_true, if_false,
        List.length_singleton]
      rw [hy2]
      exact hfold
    · rw [hx3]
      simp [List.flatMap_cons, hi]
    · rw [hx3l]
      simp [Nat.add_assoc, Nat.add_comm 1 rest.length]

/-- C5: for a visit-triggered training call, when replay is enabled
(`replay_N > 0`) and the buffer is strictly larger than `replay_N`, the
batch is the fresh example(s) followed by the examples of the
`replay_N` sampled past nodes — each sampled non-seed node contributing
its single incoming link's features, and one label per feature for
every category; otherwise the batch is exactly the fresh example(s). -/
theorem c5_batch_composition (g : Graph) (replayBuf : List Nat)
    (replayN : Nat) (sample : List Nat) (fts : List String) (node_id : Nat)
    (xfresh : List LinkDict)
    (hfresh : g.incomingLinksChecked node_id = some xfresh)
    (hne : xfresh ≠ [])
    (hlbl : ∀ ft ∈ fts, (getLabel g node_id ft).isSome)
    (hs : ∀ i ∈ sample, ∃ l, g.incomingLinksChecked i = some [l] ∧
          ∀ ft ∈ fts, (getLabel g i ft).isSome)
    (hlen : sample.length = replayN)
    (hnodup : sample.Nodup)
    (hsub : ∀ i ∈ sample, i ∈ replayBuf) :
    (replayN ≠ 0 ∧ replayN < replayBuf.length →
      ∃ b, update_classifiers g replayBuf replayN sample fts node_id =
          some (some b) ∧
        b.xraw = xfresh ++
          sample.flatMap (fun i => (g.incomingLinksChecked i).getD []) ∧
        b.xraw.length = xfresh.length + replayN ∧
        b.y.map Prod.fst = fts ∧
        ∀ p ∈ b.y, p.2.length = b.xraw.length) ∧
    (¬(replayN ≠ 0 ∧ replayN < replayBuf.length) →
      ∃ b, update_classifiers g replayBuf replayN sample fts node_id =
          some (some b) ∧
        b.xraw = xfresh ∧ b.y.map Prod.fst = fts ∧
        ∀ p ∈ b.y, p.2.length = xfresh.length) := by
  obtain ⟨y0, hy0, hy0k, hy0l⟩ := freshY_spec g node_id xfresh.length fts hlbl
  constructor
  · intro htrig
    obtain ⟨x2, y2, hfold, hx2, hx2l, hy2k, hy2l⟩ :=
      replayFold_spec g fts sample hs xfresh y0 hy0k hy0l
    refine ⟨⟨x2, y2⟩, ?_, hx2, by rw [hx2l, hlen], hy2k, hy2l⟩
    rw [update_classifiers, hfresh]
    simp only [List.isEmpty_iff, hne, if_false]
    simp [hy0, htrig, hfold]
  · intro htrig
    refine ⟨⟨xfresh, y0⟩, ?_, rfl, hy0k, hy0l⟩
    rw [update_classifiers, hfresh]
    simp only [List.isEmpty_iff, hne, if_false]
    simp [hy0, htrig]

/-- The concrete value of `c2St1` (used to discharge the witness's
hypotheses). -/
theorem c2St1_eval :
    c2St1 =
      ⟨⟨[(0, c2Seed),
         (1, ⟨some "http://d/1", some true, some true, some [("x", 0)],
              some 3, some [("x", 1/2)]⟩),
         (2, c2Child2)],
        [⟨0, 1, c2L1⟩, ⟨0, 2, c2L2⟩]⟩,
       3, [0], [2, 1], 0, 3, MaxScores.init ["x"]⟩ := by
  simp [c2St1, update_response_node, c2State, c2Resp, c2Graph, c2Seed,
    c2Child1, c2Child2, c2L1, c2L2, Graph.addNodeVisited, Graph.setNode,
    Graph.getNode, dictGet, dictSet, insertId, responseOk, observedScores,
    get_constant_scores, MaxScores.init]

/-- Witness for C5 at the concrete scenario: fresh example of node 1
plus the single example of the sampled node 2. -/
theorem c5_batch_composition_witness :
    ∃ b, update_classifiers c2St1.g c2St1.replay 1 [2] ["x"] 1 =
        some (some b) ∧
      b.xraw = [c2L1] ++
        [2].flatMap (fun i => (c2St1.g.incomingLinksChecked i).getD []) ∧
      b.xraw.length = [c2L1].length + 1 ∧
      b.y.map Prod.fst = ["x"] ∧
      ∀ p ∈ b.y, p.2.length = b.xraw.length :=
  (c5_batch_composition c2St1.g c2St1.replay 1 [2] ["x"] 1 [c2L1]
    (by
      rw [c2St1_eval]
      simp [Graph.incomingLinksChecked, Graph.incomingLinks, Graph.getNode,
        dictGet, c2L1, c2L2])
    (by simp)
    (by
      intro ft hft
      rw [c2St1_eval]
      simp [getLabel, Graph.getNode, dictGet])
    (by
      intro i hi
      rw [List.mem_singleton] at hi
      subst hi
      refine ⟨c2L2, ?_, ?_⟩
      · rw [c2St1_eval]
        simp [Graph.incomingLinksChecked, Graph.incomingLinks, Graph.getNode,
          dictGet, c2L1, c2L2]
      · intro ft hft
        rw [c2St1_eval]
        simp [getLabel, Graph.getNode, dictGet, c2Child2])
    rfl
    (by simp)
    (by
      intro i hi
      rw [List.mem_singleton] at hi
      subst hi
      rw [c2St1_eval]
      simp)).1
    ⟨by decide, by rw [c2St1_eval]; simp⟩

/-! ## C8 and C9 — machine lemmas -/

theorem inDeg_congr (g g2 : Graph) (he : g2.edges = g.edges) (n : Nat) :
    g2.inDeg n = g.inDeg n := by
  rw [Graph.inDeg, Graph.inDeg, he]

theorem ForestG_congr (g g2 : Graph) (seeds : List Nat)
    (hn : g2.nodeIds = g.nodeIds) (he : g2.edges = g.edges)
    (h : ForestG g seeds) : ForestG g2 seeds := by
  intro n hmem
  rw [hn] at hmem
  obtain ⟨h1, h2⟩ := h n hmem
  rw [ForestG] at *
  exact ⟨fun hs => (inDeg_congr g g2 he n).trans (h1 hs),
    fun hs => (inDeg_congr g g2 he n).trans (h2 hs)⟩

theorem InvG_congr (g g2 : Graph) (next : Nat) (seeds : List Nat)
    (hn : g2.nodeIds = g.nodeIds) (he : g2.edges = g.edges)
    (h : InvG g next seeds) : InvG g2 next seeds := by
  constructor
  · rw [hn]; exact h.nodup
  · rw [hn]; exact h.lt
  · exact h.seedsLt
  · intro e hme
    rw [hn]
    exact h.edgeDst e (he ▸ hme)
  · exact ForestG_congr g g2 seeds hn he h.forest

theorem InvG_setNode_mem (g : Graph) (next : Nat) (seeds : List Nat)
    (n : Nat) (d : NodeData) (hinv : InvG g next seeds)
    (hn : n ∈ g.nodeIds) : InvG (g.setNode n d) next seeds :=
  InvG_congr g (g.setNode n d) next seeds
    (Graph.nodeIds_setNode_of_mem g n d hn) rfl hinv

theorem inDeg_eq_zero_of_lt (g : Graph) (next n : Nat)
    (hd : ∀ e ∈ g.edges, e.dst ∈ g.nodeIds)
    (hlt : ∀ m ∈ g.nodeIds, m < next) (hn : next ≤ n) :
    g.inDeg n = 0 := by
  rw [Graph.inDeg, List.length_eq_zero, List.filter_eq_nil_iff]
  intro e he
  have := hlt e.dst (hd e he)
  simp only [beq_iff_eq]
  omega

theorem InvG_addSeed (g : Graph) (next : Nat) (seeds : List Nat)
    (d : NodeData) (hinv : InvG g next seeds) :
    InvG (g.setNode next d) (next + 1) (seeds ++ [next]) := by
  have hnotmem : next ∉ g.nodeIds := fun hmem => lt_irrefl next (hinv.lt next hmem)
  have hids := Graph.nodeIds_setNode_of_not_mem g next d hnotmem
  constructor
  · rw [hids, List.nodup_append]
    exact ⟨hinv.nodup, List.nodup_singleton next,
      fun a ha hb => hnotmem (by rwa [List.mem_singleton.mp hb] at ha)⟩
  · intro m hm
    rw [hids, List.mem_append, List.mem_singleton] at hm
    rcases hm with hm | hm
    · exact Nat.lt_succ_of_lt (hinv.lt m hm)
    · rw [hm]; exact Nat.lt_succ_self next
  · intro m hm
    rw [List.mem_append, List.mem_singleton] at hm
    rcases hm with hm | hm
    · exact Nat.lt_succ_of_lt (hinv.seedsLt m hm)
    · rw [hm]; exact Nat.lt_succ_self next
  · intro e he
    rw [hids, List.mem_append]
    exact Or.inl (hinv.edgeDst e he)
  · intro m hm
    rw [hids, List.mem_append, List.mem_singleton] at hm
    have hdeg : (g.setNode next d).inDeg m = g.inDeg m := rfl
    rcases hm with hm | hm
    · have hne : m ≠ next := fun hh => hnotmem (hh ▸ hm)
      obtain ⟨h1, h2⟩ := hinv.forest m hm
      constructor
      · intro hs
        rw [List.mem_append, List.mem_singleton] at hs
        rcases hs with hs | hs
        · exact hdeg.trans (h1 hs)
        · exact absurd hs hne
      · intro hs
        have hs2 : m ∉ seeds := fun hh => hs (List.mem_append_left _ hh)
        exact hdeg.trans (h2 hs2)
    · constructor
      · intro _
        refine hdeg.trans ?_
        rw [hm]
        exact inDeg_eq_zero_of_lt g next next hinv.edgeDst hinv.lt le_rfl
      · intro hs
        refine absurd ?_ hs
        rw [hm]
        exact List.mem_append_right _ (List.mem_singleton_self next)

theorem Graph.ensureNode_of_mem (g : Graph) (n : Nat) (h : n ∈ g.nodeIds) :
    g.ensureNode n = g := by
  rw [Graph.ensureNode, if_pos ((Graph.getNode_isSome_iff g n).mpr h)]

theorem genStep_spec (this_id : Nat) (st : SpiderState) (acc : List Nat)
    (ls : LinkDict × ScoresDict)
    (hinv : InvG st.g st.next st.seeds) (hthis : this_id ∈ st.g.nodeIds) :
    InvG (genStep this_id (st, acc) ls).1.g (genStep this_id (st, acc) ls).1.next
      (genStep this_id (st, acc) ls).1.seeds ∧
    this_id ∈ (genStep this_id (st, acc) ls).1.g.nodeIds ∧
    (genStep this_id (st, acc) ls).1.next = st.next + 1 ∧
    (genStep this_id (st, acc) ls).2 = acc ++ [st.next] ∧
    (genStep this_id (st, acc) ls).1.seeds = st.seeds := by
  have hnotmem : st.next ∉ st.g.nodeIds :=
    fun hmem => lt_irrefl st.next (hinv.lt st.next hmem)
  set g1 := st.g.addNodeChild st.next ls.1.url ls.2 with hg1
  have hids1 : g1.nodeIds = st.g.nodeIds ++ [st.next] :=
    Graph.nodeIds_setNode_of_not_mem st.g st.next _ hnotmem
  have hedges1 : g1.edges = st.g.edges := rfl
  have hthis1 : this_id ∈ g1.nodeIds := by
    rw [hids1]; exact List.mem_append_left _ hthis
  have hnext1 : st.next ∈ g1.nodeIds := by
    rw [hids1]; exact List.mem_append_right _ (List.mem_singleton_self _)
  have hany : (g1.edges.any
      (fun e => e.src == this_id && e.dst == st.next)) = false := by
    rw [List.any_eq_false]
    intro e he
    rw [hedges1] at he
    have hlt := hinv.lt e.dst (hinv.edgeDst e he)
    simp only [Bool.and_eq_true, beq_iff_eq, not_and]
    intro _
    omega
  have haddEdge : g1.addEdge this_id st.next ls.1 =
      { g1 with edges := g1.edges ++ [⟨this_id, st.next, ls.1⟩] } := by
    rw [Graph.addEdge, Graph.ensureNode_of_mem _ _ hthis1,
      Graph.ensureNode_of_mem _ _ hnext1, hany]
    simp
  set g2 := g1.addEdge this_id st.next ls.1 with hg2
  have hids2 : g2.nodeIds = st.g.nodeIds ++ [st.next] := by
    rw [haddEdge]
    exact hids1
  have hedges2 : g2.edges = st.g.edges ++ [⟨this_id, st.next, ls.1⟩] := by
    rw [haddEdge]
    show g1.edges ++ [(⟨this_id, st.next, ls.1⟩ : Edge)] =
      st.g.edges ++ [⟨this_id, st.next, ls.1⟩]
    rw [hedges1]
  have hdeg2 : ∀ m, m ≠ st.next → g2.inDeg m = st.g.inDeg m := by
    intro m hm
    rw [Graph.inDeg, Graph.inDeg, hedges2, List.filter_append]
    have hne2 : ¬(st.next = m) := fun hh => hm hh.symm
    have : ((([⟨this_id, st.next, ls.1⟩] : List Edge)).filter
        (fun e => e.dst == m)) = [] := by
      simp [hne2]
    rw [this]
    simp
  have hdegnext : g2.inDeg st.next = 1 := by
    rw [Graph.inDeg, hedges2, List.filter_append]
    have h0 : (st.g.edges.filter (fun e => e.dst == st.next)).length = 0 := by
      have := inDeg_eq_zero_of_lt st.g st.next st.next hinv.edgeDst hinv.lt le_rfl
      rwa [Graph.inDeg] at this
    simp [List.length_append, h0]
  have hseednot : st.next ∉ st.seeds :=
    fun hmem => lt_irrefl st.next (hinv.seedsLt st.next hmem)
  refine ⟨?_, ?_, rfl, rfl, rfl⟩
  · constructor
    · simp only [genStep]
      rw [hids2, List.nodup_append]
      exact ⟨hinv.nodup, List.nodup_singleton _,
        fun a ha hb => hnotmem (by rwa [List.mem_singleton.mp hb] at ha)⟩
    · intro m hm
      simp only [genStep] at hm ⊢
      rw [hids2, List.mem_append, List.mem_singleton] at hm
      rcases hm with hm | hm
      · exact Nat.lt_succ_of_lt (hinv.lt m hm)
      · rw [hm]; exact Nat.lt_succ_self _
    · intro m hm
      simp only [genStep] at hm ⊢
      exact Nat.lt_succ_of_lt (hinv.seedsLt m hm)
    · intro e he
      simp only [genStep] at he ⊢
      rw [hedges2, List.mem_append, List.mem_singleton] at he
      rw [hids2, List.mem_append, List.mem_singleton]
      rcases he with he | he
      · exact Or.inl (hinv.edgeDst e he)
      · rw [he]; exact Or.inr rfl
    · intro m hm
      simp only [genStep] at hm ⊢
      rw [hids2, List.mem_append, List.mem_singleton] at hm
      rcases hm with hm | hm
      · have hne : m ≠ st.next := fun hh => hnotmem (hh ▸ hm)
        obtain ⟨h1, h2⟩ := hinv.forest m hm
        exact ⟨fun hs => (hdeg2 m hne).trans (h1 hs),
          fun hs => (hdeg2 m hne).trans (h2 hs)⟩
      · constructor
        · intro hs
          rw [hm] at hs
          exact absurd hs hseednot
        · intro _
          rw [hm]
          exact hdegnext
  · simp only [genStep]
    rw [hids2, List.mem_append]
    exact Or.inl hthis

theorem genFold_spec (this_id : Nat) (L : List (LinkDict × ScoresDict)) :
    ∀ (st : SpiderState) (acc : List Nat),
    InvG st.g st.next st.seeds → this_id ∈ st.g.nodeIds →
    InvG (L.foldl (genStep this_id) (st, acc)).1.g
        (L.foldl (genStep this_id) (st, acc)).1.next
        (L.foldl (genStep this_id) (st, acc)).1.seeds ∧
    (L.foldl (genStep this_id) (st, acc)).1.next = st.next + L.length ∧
    (L.foldl (genStep this_id) (st, acc)).2 =
      acc ++ List.range' st.next L.length := by
  induction L with
  | nil =>
    intro st acc hinv _
    exact ⟨hinv, by simp, by simp⟩
  | cons ls L ih =>
    intro st acc hinv hthis
    obtain ⟨hinv2, hthis2, hnext2, htrace2, _⟩ :=
      genStep_spec this_id st acc ls hinv hthis
    rw [List.foldl_cons]
    obtain ⟨hi1, hi2, hi3⟩ :=
      ih (genStep this_id (st, acc) ls).1 (genStep this_id (st, acc) ls).2
        hinv2 hthis2
    refine ⟨?_, ?_, ?_⟩
    · exact hi1
    · rw [hi2, hnext2, List.length_cons]
      omega
    · rw [hi3, htrace2, hnext2, List.length_cons, List.append_assoc]
      rw [List.range'_succ]
      rfl

theorem update_response_node_none (ft : List String) (st : SpiderState)
    (r : Response) (hmeta : r.metaNodeId = none) :
    update_response_node ft st r =
      ({ st with
         g := st.g.addNodeVisited st.next r.url (responseOk r)
           (observedScores ft r) st.response_count,
         next := st.next + 1,
         seeds := st.seeds ++ [st.next] }, st.next) := by
  simp only [update_response_node, hmeta]

theorem update_response_node_some (ft : List String) (st : SpiderState)
    (r : Response) (n : Nat) (hmeta : r.metaNodeId = some n) :
    update_response_node ft st r =
      ({ st with
         g := st.g.addNodeVisited n r.url (responseOk r)
           (observedScores ft r) st.response_count,
         replay := insertId st.replay n }, n) := by
  simp only [update_response_node, hmeta]

theorem update_domain_scores_frame (st : SpiderState) (r : Response)
    (nid : Nat) (st2 : SpiderState)
    (h : update_domain_scores st r nid = some st2) :
    st2.g = st.g ∧ st2.next = st.next ∧ st2.seeds = st.seeds := by
  rw [update_domain_scores] at h
  cases hn : st.g.getNode nid with
  | none => rw [hn] at h; cases h
  | some d =>
    rw [hn] at h
    dsimp only at h
    cases hs : d.scores with
    | none => rw [hs] at h; cases h; exact ⟨rfl, rfl, rfl⟩
    | some sc =>
      rw [hs] at h
      dsimp only at h
      by_cases he : sc.isEmpty = true
      · rw [if_pos he] at h; cases h; exact ⟨rfl, rfl, rfl⟩
      · rw [if_neg he] at h
        cases hu : st.domains.update r.domain sc with
        | none => rw [hu] at h; cases h
        | some ds => rw [hu] at h; cases h; exact ⟨rfl, rfl, rfl⟩

theorem gatherPending_mem (g : Graph) :
    ∀ (pending : List Nat) (pairs : List (LinkDict × Nat)),
    gatherPending g pending = some pairs → ∀ pr ∈ pairs, pr.2 ∈ g.nodeIds := by
  intro pending
  induction pending with
  | nil =>
    intro pairs h pr hpr
    rw [gatherPending] at h
    cases h
    simp at hpr
  | cons n rest ih =>
    intro pairs h pr hpr
    rw [gatherPending] at h
    by_cases hs : (g.getNode n).isSome = true
    · rw [if_pos hs] at h
      cases hg : gatherPending g rest with
      | none => rw [hg] at h; cases h
      | some tl =>
        rw [hg] at h
        cases h
        rw [List.mem_append] at hpr
        rcases hpr with hpr | hpr
        · obtain ⟨l, _, he⟩ := List.mem_map.mp hpr
          rw [← he]
          exact (Graph.getNode_isSome_iff g n).mp hs
        · exact ih tl hg pr hpr
    · rw [if_neg hs] at h; cases h

theorem applyPredicted_ids (pairs : List (Nat × ScoresDict)) :
    ∀ (g : Graph), (∀ p ∈ pairs, p.1 ∈ g.nodeIds) →
    (applyPredicted g pairs).nodeIds = g.nodeIds ∧
    (applyPredicted g pairs).edges = g.edges := by
  induction pairs with
  | nil => intro g _; exact ⟨rfl, rfl⟩
  | cons p ps ih =>
    intro g h
    rw [applyPredicted_cons]
    have hmem := h p (by simp)
    have hids : (g.addNodePredicted p.1 p.2).nodeIds = g.nodeIds :=
      Graph.nodeIds_setNode_of_mem g p.1 _ hmem
    obtain ⟨h1, h2⟩ := ih (g.addNodePredicted p.1 p.2)
      (by
        intro q hq
        rw [hids]
        exact h q (List.mem_cons_of_mem _ hq))
    exact ⟨h1.trans hids, h2⟩

theorem stepRescore_spec (scorer : List LinkDict → List ScoresDict)
    (st : SpiderState) (pending : List Nat) (out : SpiderState × List Nat)
    (hinv : Inv st) (h : stepRescore scorer st pending = some out) :
    Inv out.1 ∧ out.1.next = st.next ∧ out.2 = [] := by
  rw [stepRescore] at h
  cases hr : recalculate_link_scores scorer st.g pending st.response_count
      st.recalculated_at st.domains.len with
  | none => rw [hr] at h; cases h
  | some ro =>
    rw [hr] at h
    cases h
    refine ⟨?_, rfl, rfl⟩
    show InvG ro.g st.next st.seeds
    rw [recalculate_link_scores] at hr
    split at hr
    · cases hr; exact hinv
    · rw [recalcRun] at hr
      cases hgp : gatherPending st.g pending with
      | none => rw [hgp] at hr; cases hr
      | some pairs =>
        rw [hgp] at hr
        cases hr
        obtain ⟨h1, h2⟩ := applyPredicted_ids _ st.g (by
          intro p hp
          obtain ⟨hl, _⟩ := List.mem_zip hp
          obtain ⟨pr, hpr, he⟩ := List.mem_map.mp hl
          rw [← he]
          exact gatherPending_mem st.g pending pairs hgp pr hpr)
        exact InvG_congr st.g _ st.next st.seeds h1 h2 hinv

theorem stepDrop_spec (ft : List String) (st : SpiderState)
    (nid : Option Nat) (out : SpiderState × List Nat)
    (hinv : Inv st) (h : stepDrop ft st nid = some out) :
    Inv out.1 ∧ out.1.next = st.next ∧ out.2 = [] := by
  cases nid with
  | none =>
    simp only [stepDrop] at h
    cases h
    exact ⟨hinv, rfl, rfl⟩
  | some n =>
    cases n with
    | zero =>
      simp only [stepDrop] at h
      cases h
      exact ⟨hinv, rfl, rfl⟩
    | succ k =>
      simp only [stepDrop] at h
      by_cases hv : validMeta st (some (k + 1)) = true
      · rw [if_pos hv] at h
        cases h
        refine ⟨?_, rfl, rfl⟩
        have hmem : (k + 1) ∈ st.g.nodeIds := by
          rw [validMeta, Bool.and_eq_true] at hv
          exact (Graph.getNode_isSome_iff st.g (k + 1)).mp hv.1
        exact InvG_setNode_mem st.g st.next st.seeds (k + 1) _ hinv hmem
      · rw [if_neg hv] at h; cases h

theorem stepVisitTail_spec (scorer : List LinkDict → List ScoresDict)
    (r : Response) (st1 : SpiderState) (node_id : Nat)
    (links : List LinkDict) (allocs : List Nat) (out : SpiderState × List Nat)
    (hinv : Inv st1) (hmem : node_id ∈ st1.g.nodeIds)
    (h : stepVisitTail scorer r st1 node_id links allocs = some out) :
    Inv out.1 ∧ st1.next ≤ out.1.next ∧
    out.2 = allocs ++ List.range' st1.next (out.1.next - st1.next) := by
  rw [stepVisitTail] at h
  cases hd : update_domain_scores st1 r node_id with
  | none => rw [hd] at h; cases h
  | some st2 =>
    rw [hd] at h
    dsimp only at h
    obtain ⟨hg2, hn2, hs2⟩ := update_domain_scores_frame st1 r node_id st2 hd
    have hinv2 : Inv st2 := by
      show InvG st2.g st2.next st2.seeds
      rw [hg2, hn2, hs2]
      exact hinv
    have hmem2 : node_id ∈ st2.g.nodeIds := by rw [hg2]; exact hmem
    cases hgn : st2.g.getNode node_id with
    | none => rw [hgn] at h; cases h
    | some d =>
      rw [hgn] at h
      dsimp only at h
      by_cases hok : d.ok = some true
      · rw [if_pos hok] at h
        cases h
        obtain ⟨gi, gnext, gtrace⟩ :=
          genFold_spec node_id (links.zip (scorer links)) st2 [] hinv2 hmem2
        rw [generate_out_nodes]
        refine ⟨gi, ?_, ?_⟩
        · rw [gnext, hn2]
          omega
        · rw [gtrace, gnext, hn2]
          have : st1.next + (links.zip (scorer links)).length - st1.next =
              (links.zip (scorer links)).length := by omega
          rw [this]
          simp
      · rw [if_neg hok] at h
        cases h
        refine ⟨hinv2, by rw [hn2], ?_⟩
        rw [hn2]
        simp

theorem nodeIds_addNodeVisited_fresh (g : Graph) (n : Nat) (url : String)
    (ok : Bool) (sc : ScoresDict) (rid : Nat) (h : n ∉ g.nodeIds) :
    (g.addNodeVisited n url ok sc rid).nodeIds = g.nodeIds ++ [n] :=
  Graph.nodeIds_setNode_of_not_mem g n _ h

theorem nodeIds_addNodeVisited_mem (g : Graph) (n : Nat) (url : String)
    (ok : Bool) (sc : ScoresDict) (rid : Nat) (h : n ∈ g.nodeIds) :
    (g.addNodeVisited n url ok sc rid).nodeIds = g.nodeIds :=
  Graph.nodeIds_setNode_of_mem g n _ h

theorem Inv_update_response_node_none (ft : List String) (st : SpiderState)
    (r : Response) (hmeta : r.metaNodeId = none) (hinv : Inv st) :
    Inv (update_response_node ft st r).1 ∧
    (update_response_node ft st r).2 ∈
      (update_response_node ft st r).1.g.nodeIds ∧
    (update_response_node ft st r).1.next = st.next + 1 := by
  rw [update_response_node_none ft st r hmeta]
  have hnm : st.next ∉ st.g.nodeIds :=
    fun hmem => lt_irrefl _ (hinv.lt _ hmem)
  refine ⟨?_, ?_, rfl⟩
  · show InvG _ _ _
    exact InvG_addSeed st.g st.next st.seeds _ hinv
  · show st.next ∈ (st.g.addNodeVisited st.next r.url (responseOk r)
      (observedScores ft r) st.response_count).nodeIds
    rw [nodeIds_addNodeVisited_fresh st.g st.next _ _ _ _ hnm]
    exact List.mem_append_right _ (List.mem_singleton_self _)

theorem Inv_update_response_node_some (ft : List String) (st : SpiderState)
    (r : Response) (n : Nat) (hmeta : r.metaNodeId = some n)
    (hmem : n ∈ st.g.nodeIds) (hinv : Inv st) :
    Inv (update_response_node ft st r).1 ∧
    (update_response_node ft st r).2 ∈
      (update_response_node ft st r).1.g.nodeIds ∧
    (update_response_node ft st r).1.next = st.next := by
  rw [update_response_node_some ft st r n hmeta]
  refine ⟨?_, ?_, rfl⟩
  · show InvG _ _ _
    exact InvG_setNode_mem st.g st.next st.seeds n _ hinv hmem
  · show n ∈ (st.g.addNodeVisited n r.url (responseOk r)
      (observedScores ft r) st.response_count).nodeIds
    rw [nodeIds_addNodeVisited_mem st.g n _ _ _ _ hmem]
    exact hmem

theorem stepVisit_spec (scorer : List LinkDict → List ScoresDict)
    (ft : List String) (st : SpiderState) (r : Response)
    (links : List LinkDict) (out : SpiderState × List Nat)
    (hinv : Inv st) (h : stepVisit scorer ft st r links = some out) :
    Inv out.1 ∧ st.next ≤ out.1.next ∧
    out.2 = List.range' st.next (out.1.next - st.next) := by
  rw [stepVisit] at h
  by_cases hv : validMeta st r.metaNodeId = true
  case neg => rw [if_neg hv] at h; cases h
  rw [if_pos hv] at h
  cases hm : r.metaNodeId with
  | none =>
    rw [hm] at h
    dsimp only at h
    obtain ⟨hi1, hi2, hi3⟩ := Inv_update_response_node_none ft
      { st with response_count := st.response_count + 1 } r hm hinv
    dsimp only at hi3
    obtain ⟨ho1, ho2, ho3⟩ :=
      stepVisitTail_spec scorer r _ _ links _ out hi1 hi2 h
    rw [hi3] at ho2 ho3
    have hk : out.1.next - st.next = (out.1.next - (st.next + 1)) + 1 := by
      omega
    refine ⟨ho1, by omega, ?_⟩
    rw [ho3, hk, List.range'_succ]
    simp
  | some n =>
    rw [hm] at h
    dsimp only at h
    rw [hm, validMeta, Bool.and_eq_true] at hv
    have hmemN : n ∈ st.g.nodeIds :=
      (Graph.getNode_isSome_iff st.g n).mp hv.1
    obtain ⟨hi1, hi2, hi3⟩ := Inv_update_response_node_some ft
      { st with response_count := st.response_count + 1 } r n hm hmemN hinv
    dsimp only at hi3
    obtain ⟨ho1, ho2, ho3⟩ :=
      stepVisitTail_spec scorer r _ _ links _ out hi1 hi2 h
    rw [hi3] at ho2 ho3
    refine ⟨ho1, ho2, ?_⟩
    rw [ho3]
    simp

theorem step_spec (scorer : List LinkDict → List ScoresDict)
    (ft : List String) (st : SpiderState) (e : Event)
    (out : SpiderState × List Nat)
    (hinv : Inv st) (h : step scorer ft st e = some out) :
    Inv out.1 ∧ st.next ≤ out.1.next ∧
    out.2 = List.range' st.next (out.1.next - st.next) := by
  cases e with
  | visit r links => exact stepVisit_spec scorer ft st r links out hinv h
  | rescore pending =>
    obtain ⟨h1, h2, h3⟩ := stepRescore_spec scorer st pending out hinv h
    refine ⟨h1, by omega, ?_⟩
    rw [h3, h2]
    simp
  | drop nid =>
    obtain ⟨h1, h2, h3⟩ := stepDrop_spec ft st nid out hinv h
    refine ⟨h1, by omega, ?_⟩
    rw [h3, h2]
    simp

theorem run_spec (scorer : List LinkDict → List ScoresDict)
    (ft : List String) :
    ∀ (evs : List Event) (st : SpiderState) (out : SpiderState × List Nat),
    Inv st → run scorer ft st evs = some out →
    Inv out.1 ∧ st.next ≤ out.1.next ∧
    out.2 = List.range' st.next (out.1.next - st.next) := by
  intro evs
  induction evs with
  | nil =>
    intro st out hinv h
    rw [run] at h
    cases h
    exact ⟨hinv, le_rfl, by simp⟩
  | cons e rest ih =>
    intro st out hinv h
    rw [run] at h
    cases hs : step scorer ft st e with
    | none => rw [hs] at h; cases h
    | some out1 =>
      rw [hs] at h
      dsimp only at h
      cases hr : run scorer ft out1.1 rest with
      | none => rw [hr] at h; cases h
      | some out2 =>
        rw [hr] at h
        cases h
        obtain ⟨h1, h2, h3⟩ := step_spec scorer ft st e out1 hinv hs
        obtain ⟨h4, h5, h6⟩ := ih out1.1 out2 h1 hr
        refine ⟨h4, ?_, ?_⟩
        · show st.next ≤ out2.1.next
          omega
        · show out1.2 ++ out2.2 = List.range' st.next (out2.1.next - st.next)
          obtain ⟨m, hm⟩ : ∃ m, out1.1.next = st.next + m :=
            ⟨out1.1.next - st.next, by omega⟩
          obtain ⟨k, hk⟩ : ∃ k, out2.1.next = out1.1.next + k :=
            ⟨out2.1.next - out1.1.next, by omega⟩
          rw [h3, h6, hk, hm]
          simp only [Nat.add_assoc, Nat.add_sub_cancel_left]
          have h8 := List.range'_append st.next m k 1
          simp only [Nat.one_mul] at h8
          have h9 : st.next + (m + k) - (st.next + m) = k := by omega
          rw [h9, h8, Nat.add_comm k m]

/-- C8: starting from the freshly initialised spider, after every
sequence of events (visits with their extracted links, re-scoring
passes over any pending frontier, off-domain drops) the crawl graph is
a forest: every seed node has zero incoming edges and every non-seed
node exactly one — in particular before and after any re-scoring
pass. -/
theorem c8_forest_invariant (scorer : List LinkDict → List ScoresDict)
    (ft : List String) (evs : List Event) (out : SpiderState × List Nat)
    (hrun : run scorer ft (initialState ft) evs = some out) :
    Forest out.1 := by
  have hinv0 : Inv (initialState ft) := by
    refine ⟨?_, ?_, ?_, ?_, ?_⟩ <;> simp [initialState, Graph.nodeIds, ForestG]
  exact (run_spec scorer ft evs (initialState ft) out hinv0 hrun).1.forest

/-- C9: starting from the freshly initialised spider, the node ids
allocated over any event sequence are exactly the successive counter
values `0, 1, 2, …` — strictly increasing over time and never
reused. -/
theorem c9_ids_strictly_increasing (scorer : List LinkDict → List ScoresDict)
    (ft : List String) (evs : List Event) (out : SpiderState × List Nat)
    (hrun : run scorer ft (initialState ft) evs = some out) :
    out.2 = List.range' 0 out.1.next ∧
    out.2.Pairwise (· < ·) ∧ out.2.Nodup := by
  have hinv0 : Inv (initialState ft) := by
    refine ⟨?_, ?_, ?_, ?_, ?_⟩ <;> simp [initialState, Graph.nodeIds, ForestG]
  obtain ⟨-, -, h3⟩ := run_spec scorer ft evs (initialState ft) out hinv0 hrun
  have htr : out.2 = List.range' 0 out.1.next := by
    rw [h3]
    rfl
  have hpw : out.2.Pairwise (· < ·) := by
    rw [htr]
    exact List.pairwise_lt_range' 0 out.1.next 1 (by omega)
  exact ⟨htr, hpw, hpw.nodup⟩

/-- Witness for C8: one seed visit expanding one child keeps the graph
a forest. -/
theorem c8_forest_invariant_witness : Forest wOut :=
  c8_forest_invariant scorerEmpty ["x"] [.visit wResp [wLink]]
    (wOut, [0, 1]) rfl

/-- Witness for C9: the same run allocates exactly the ids 0 and 1, in
order. -/
theorem c9_ids_strictly_increasing_witness :
    ([0, 1] : List Nat) = List.range' 0 wOut.next ∧
    ([0, 1] : List Nat).Pairwise (· < ·) ∧ ([0, 1] : List Nat).Nodup :=
  c9_ids_strictly_increasing scorerEmpty ["x"] [.visit wResp [wLink]]
    (wOut, [0, 1]) rfl
end Acrawler
